import Mathlib

/-!
Verification of scripts/echo_provider.py.

The script reads all of standard input, parses it with json.loads, computes
input_data.get('prompt', ''), and prints json.dumps({'output': prompt}).

Embedding notes:
* JVal models the values json.loads can produce, with integers standing in
  for Python numbers (float literals, NaN and Infinity are outside the
  embedding: json_loads fails on such texts rather than mis-parsing them).
* json_loads models json.loads with its default strict settings: JSON
  whitespace, string escape sequences with surrogate-pair combination
  (a lone surrogate is not representable in a Lean String and is rejected),
  raw control characters in strings rejected, no trailing data, objects kept
  as member lists where a repeated key resolves last-wins like a Python dict.
* serChars / dumps model json.dumps with its defaults: ensure_ascii=True
  (every character outside printable ASCII becomes a backslash-u escape with
  lowercase hex digits, astral code points become surrogate pairs) and the
  default separators, i.e. a comma-space between items and colon-space after
  keys.
* echoProgram stdinText = some out means: the process writes exactly out to
  stdout and exits with status zero. echoProgram stdinText = none means: an
  uncaught exception terminates the process with a nonzero status before
  anything has been written to stdout.
-/

namespace EchoProvider

/-- JSON values as produced by json.loads (numbers restricted to integers). -/
inductive JVal : Type where
  | null : JVal
  | bool (b : Bool) : JVal
  | num (n : Int) : JVal
  | str (s : String) : JVal
  | arr (elems : List JVal) : JVal
  | obj (members : List (String × JVal)) : JVal

/-- JSON whitespace, as skipped by the json.loads scanner. -/
def isJsonWs (c : Char) : Bool :=
  c = ' ' || c = '\t' || c = '\n' || c = '\r'

/-- Drop leading JSON whitespace. -/
def skipWs : List Char → List Char
  | [] => []
  | c :: rest => if isJsonWs c then skipWs rest else c :: rest

/-- Numeric value of one hexadecimal digit, as accepted in a string escape. -/
def hexVal? (c : Char) : Option Nat :=
  if '0' ≤ c ∧ c ≤ '9' then some (c.toNat - 48)
  else if 'a' ≤ c ∧ c ≤ 'f' then some (c.toNat - 87)
  else if 'A' ≤ c ∧ c ≤ 'F' then some (c.toNat - 55)
  else none

/-- Numeric value of a four-hex-digit escape payload. -/
def hexVal4? (a b c d : Char) : Option Nat :=
  match hexVal? a, hexVal? b, hexVal? c, hexVal? d with
  | some x, some y, some z, some w => some (4096 * x + 256 * y + 16 * z + w)
  | _, _, _, _ => none

/-- Low-surrogate continuation after a high surrogate hi has been read from
a backslash-u escape: expects another backslash-u escape whose payload is in
the low-surrogate range, and combines the pair into one code point. -/
def readLow (hi : Nat) : List Char → Option (Char × List Char)
  | b1 :: b2 :: g1 :: g2 :: g3 :: g4 :: rest =>
    if b1 = '\\' ∧ b2 = 'u' then
      match hexVal4? g1 g2 g3 g4 with
      | some m =>
        if 56320 ≤ m ∧ m ≤ 57343 then
          some (Char.ofNat (65536 + 1024 * (hi - 55296) + (m - 56320)), rest)
        else none
      | none => none
    else none
  | _ => none

/-- Payload of a backslash-u escape: four hex digits, with surrogate-pair
combination; a lone surrogate (representable in a Python str but not in a
Lean String) is rejected. -/
def readU : List Char → Option (Char × List Char)
  | h1 :: h2 :: h3 :: h4 :: rest =>
    match hexVal4? h1 h2 h3 h4 with
    | some n =>
      if 55296 ≤ n ∧ n ≤ 56319 then readLow n rest
      else if 56320 ≤ n ∧ n ≤ 57343 then none
      else some (Char.ofNat n, rest)
    | none => none
  | _ => none

/-- One escape sequence after the backslash, as py_scanstring accepts it. -/
def readEscape : List Char → Option (Char × List Char)
  | [] => none
  | e :: rest =>
    if e = '"' then some ('"', rest)
    else if e = '\\' then some ('\\', rest)
    else if e = '/' then some ('/', rest)
    else if e = 'b' then some ('\x08', rest)
    else if e = 'f' then some ('\x0c', rest)
    else if e = 'n' then some ('\n', rest)
    else if e = 'r' then some ('\r', rest)
    else if e = 't' then some ('\t', rest)
    else if e = 'u' then readU rest
    else none

/-- Body of a JSON string literal (the part after the opening quote), fuel
bounded: returns the decoded characters and the input remaining after the
closing quote. Models py_scanstring in strict mode (raw control characters
rejected). Each step consumes at least one input character and produces at
most one output character, so the fuel supplied by parseStr is sufficient. -/
def parseStrF : Nat → List Char → Option (List Char × List Char)
  | 0, _ => none
  | f + 1, cs =>
    match cs with
    | [] => none
    | c :: rest =>
      if c = '"' then some ([], rest)
      else if c = '\\' then
        match readEscape rest with
        | some (d, rest2) => (parseStrF f rest2).map (fun p => (d :: p.1, p.2))
        | none => none
      else if c.toNat < 0x20 then none
      else (parseStrF f rest).map (fun p => (c :: p.1, p.2))

/-- Body of a JSON string literal, with sufficient fuel. -/
def parseStr (cs : List Char) : Option (List Char × List Char) :=
  parseStrF (cs.length + 1) cs

/-- Accumulate a run of decimal digits. -/
def digitsAcc (acc : Nat) : List Char → Nat × List Char
  | [] => (acc, [])
  | c :: rest =>
    if c.isDigit then digitsAcc (10 * acc + (c.toNat - 48)) rest else (acc, c :: rest)

/-- Rest of the literal true after its first character. -/
def litTrue : List Char → Option (JVal × List Char)
  | 'r' :: 'u' :: 'e' :: rest => some (JVal.bool true, rest)
  | _ => none

/-- Rest of the literal false after its first character. -/
def litFalse : List Char → Option (JVal × List Char)
  | 'a' :: 'l' :: 's' :: 'e' :: rest => some (JVal.bool false, rest)
  | _ => none

/-- Rest of the literal null after its first character. -/
def litNull : List Char → Option (JVal × List Char)
  | 'u' :: 'l' :: 'l' :: rest => some (JVal.null, rest)
  | _ => none

/-- Digits of a negative number after the minus sign (leading zero matches
only the single digit zero, as the json.loads number regex does). -/
def negNum : List Char → Option (JVal × List Char)
  | [] => none
  | d :: rest =>
    if d = '0' then some (JVal.num 0, rest)
    else if d.isDigit then
      let p := digitsAcc (d.toNat - 48) rest
      some (JVal.num (-(p.1 : Int)), p.2)
    else none

mutual

/-- One JSON value, fuel-bounded recursive descent (models the json.loads
scanner; the fuel passed by json_loads is always sufficient). -/
def parseVal : Nat → List Char → Option (JVal × List Char)
  | 0, _ => none
  | n + 1, cs =>
    match cs with
    | [] => none
    | c :: rest =>
      if c = '"' then (parseStr rest).map (fun p => (JVal.str ⟨p.1⟩, p.2))
      else if c = '{' then
        (parseMembers n true (skipWs rest)).map (fun p => (JVal.obj p.1, p.2))
      else if c = '[' then
        (parseElems n true (skipWs rest)).map (fun p => (JVal.arr p.1, p.2))
      else if c = 't' then litTrue rest
      else if c = 'f' then litFalse rest
      else if c = 'n' then litNull rest
      else if c = '-' then negNum rest
      else if c = '0' then some (JVal.num 0, rest)
      else if c.isDigit then
        let p := digitsAcc (c.toNat - 48) rest
        some (JVal.num (p.1 : Int), p.2)
      else none

/-- Elements of an array after the opening bracket (whitespace already
skipped); first is true until the first element has been read, so that a
closing bracket is only accepted immediately after the opening one or after
an element, never after a comma. -/
def parseElems : Nat → Bool → List Char → Option (List JVal × List Char)
  | 0, _, _ => none
  | n + 1, first, cs =>
    match cs with
    | [] => none
    | c :: rest =>
      if first ∧ c = ']' then some ([], rest)
      else
        match parseVal n (c :: rest) with
        | none => none
        | some (v, rest2) =>
          match skipWs rest2 with
          | [] => none
          | e :: rest3 =>
            if e = ',' then
              (parseElems n false (skipWs rest3)).map (fun p => (v :: p.1, p.2))
            else if e = ']' then some ([v], rest3)
            else none

/-- Members of an object after the opening brace (whitespace already
skipped); first plays the same role as in parseElems. -/
def parseMembers : Nat → Bool → List Char → Option (List (String × JVal) × List Char)
  | 0, _, _ => none
  | n + 1, first, cs =>
    match cs with
    | [] => none
    | c :: rest =>
      if first ∧ c = '}' then some ([], rest)
      else if c = '"' then
        match parseStr rest with
        | none => none
        | some (kcs, rest2) =>
          match skipWs rest2 with
          | [] => none
          | d :: rest3 =>
            if d = ':' then
              match parseVal n (skipWs rest3) with
              | none => none
              | some (v, rest4) =>
                match skipWs rest4 with
                | [] => none
                | e :: rest5 =>
                  if e = ',' then
                    (parseMembers n false (skipWs rest5)).map
                      (fun p => ((⟨kcs⟩, v) :: p.1, p.2))
                  else if e = '}' then some ([(⟨kcs⟩, v)], rest5)
                  else none
            else none
      else none

end

/-- Model of json.loads on the full stdin text: skip surrounding whitespace,
parse exactly one JSON value, reject trailing data. none models a raised
ValueError (or a float/NaN/Infinity text, outside this embedding). -/
def json_loads (input : String) : Option JVal :=
  match parseVal (2 * input.data.length + 2) (skipWs input.data) with
  | some (v, rest) => if skipWs rest = [] then some v else none
  | none => none

/-- Last-wins association lookup: the value a Python dict built from these
members in order would hold for the key. -/
def lookupLast : List (String × JVal) → String → Option JVal
  | [], _ => none
  | (k, v) :: rest, key =>
    match lookupLast rest key with
    | some w => some w
    | none => if k = key then some v else none

/-- Model of input_data.get(key, dflt): some value for a dict, none for any
non-dict value (AttributeError, the call raises). -/
def pyGet (v : JVal) (key : String) (dflt : JVal) : Option JVal :=
  match v with
  | JVal.obj ms => some ((lookupLast ms key).getD dflt)
  | _ => none

/-- Decimal digits of a natural number, most significant first. -/
def natRepr (n : Nat) : List Char :=
  if h : n < 10 then [Char.ofNat (48 + n)]
  else natRepr (n / 10) ++ [Char.ofNat (48 + n % 10)]
decreasing_by exact Nat.div_lt_self (by omega) (by omega)

/-- Decimal representation of an integer, as Python repr of an int. -/
def intRepr : Int → List Char
  | Int.ofNat n => natRepr n
  | Int.negSucc m => '-' :: natRepr (m + 1)

/-- Lowercase hexadecimal digit for n below 16. -/
def hexDigitChar (n : Nat) : Char :=
  if n < 10 then Char.ofNat (48 + n) else Char.ofNat (87 + n)

/-- Four lowercase hex digits, the 04x rendering used in a string escape. -/
def hex4Chars (n : Nat) : List Char :=
  [hexDigitChar (n / 4096 % 16), hexDigitChar (n / 256 % 16),
    hexDigitChar (n / 16 % 16), hexDigitChar (n % 16)]

/-- Encoding of one character inside a JSON string literal, as the
ensure_ascii encoder of json.dumps emits it: quote and backslash escaped,
printable ASCII kept, the named control escapes, and a backslash-u escape
(or surrogate pair) for everything else. -/
def escChar (c : Char) : List Char :=
  if c = '"' then ['\\', '"']
  else if c = '\\' then ['\\', '\\']
  else if 0x20 ≤ c.toNat ∧ c.toNat ≤ 0x7e then [c]
  else if c = '\x08' then ['\\', 'b']
  else if c = '\x0c' then ['\\', 'f']
  else if c = '\n' then ['\\', 'n']
  else if c = '\r' then ['\\', 'r']
  else if c = '\t' then ['\\', 't']
  else if c.toNat < 0x10000 then '\\' :: 'u' :: hex4Chars c.toNat
  else
    '\\' :: 'u' :: hex4Chars (0xD800 + (c.toNat - 0x10000) / 1024) ++
      '\\' :: 'u' :: hex4Chars (0xDC00 + (c.toNat - 0x10000) % 1024)

/-- Encoding of a character sequence inside a JSON string literal. -/
def encodeChars : List Char → List Char
  | [] => []
  | c :: cs => escChar c ++ encodeChars cs

mutual

/-- Characters of json.dumps output for a value (default separators,
ensure_ascii=True). -/
def serChars : JVal → List Char
  | JVal.null => ['n', 'u', 'l', 'l']
  | JVal.bool true => ['t', 'r', 'u', 'e']
  | JVal.bool false => ['f', 'a', 'l', 's', 'e']
  | JVal.num n => intRepr n
  | JVal.str s => '"' :: encodeChars s.data ++ ['"']
  | JVal.arr xs => '[' :: serList xs ++ [']']
  | JVal.obj ms => '{' :: serMembers ms ++ ['}']

/-- Array items joined by comma-space. -/
def serList : List JVal → List Char
  | [] => []
  | [x] => serChars x
  | x :: y :: xs => serChars x ++ ',' :: ' ' :: serList (y :: xs)

/-- Object members, key colon-space value, joined by comma-space. -/
def serMembers : List (String × JVal) → List Char
  | [] => []
  | [(k, v)] => '"' :: encodeChars k.data ++ '"' :: ':' :: ' ' :: serChars v
  | (k, v) :: m :: ms =>
    '"' :: encodeChars k.data ++ '"' :: ':' :: ' ' :: serChars v ++
      ',' :: ' ' :: serMembers (m :: ms)

end

/-- Model of json.dumps with default options. -/
def dumps (v : JVal) : String := ⟨serChars v⟩

/-- The single line the script prints for an extracted prompt value:
json.dumps({'output': prompt}) plus the newline appended by print. -/
def outputLine (prompt : JVal) : String :=
  dumps (JVal.obj [("output", prompt)]) ++ "\n"

/-- The script after json.loads has produced a value: get the prompt with
default empty string, print the output envelope; none models the uncaught
AttributeError on a non-dict value. -/
def echoFromValue (input_data : JVal) : Option String :=
  (pyGet input_data "prompt" (JVal.str "")).map outputLine

/-- The whole script as a function from the stdin text to its observable
outcome: some out is a run that writes exactly out to stdout and exits with
status zero; none is a run killed by an uncaught exception, with nonzero
exit status and nothing written to stdout. -/
def echoProgram (stdinText : String) : Option String :=
  (json_loads stdinText).bind echoFromValue

/-- Standard JSON decoding of one complete string literal (used to state
that the encoder's output denotes the original string value). -/
def decodeStringLit (t : String) : Option String :=
  match t.data with
  | '"' :: rest =>
    match parseStr rest with
    | some (cs, []) => some ⟨cs⟩
    | _ => none
  | _ => none

/-! Helper lemmas about characters and the string escape round trip. -/

theorem char_valid_range (c : Char) :
    c.toNat < 55296 ∨ (57344 ≤ c.toNat ∧ c.toNat < 1114112) := c.valid

theorem hexVal?_hexDigitChar : ∀ n, n < 16 → hexVal? (hexDigitChar n) = some n := by
  decide

theorem hexVal4?_digits (n : Nat) (h : n < 65536) :
    hexVal4? (hexDigitChar (n / 4096 % 16)) (hexDigitChar (n / 256 % 16))
      (hexDigitChar (n / 16 % 16)) (hexDigitChar (n % 16)) = some n := by
  have h1 := hexVal?_hexDigitChar (n / 4096 % 16) (Nat.mod_lt _ (by omega))
  have h2 := hexVal?_hexDigitChar (n / 256 % 16) (Nat.mod_lt _ (by omega))
  have h3 := hexVal?_hexDigitChar (n / 16 % 16) (Nat.mod_lt _ (by omega))
  have h4 := hexVal?_hexDigitChar (n % 16) (Nat.mod_lt _ (by omega))
  simp only [hexVal4?, h1, h2, h3, h4, Option.some.injEq]
  omega

/-- Reading a surrogate-pair escape payload recombines the code point. -/
theorem readU_pair (n m : Nat) (hn1 : 55296 ≤ n) (hn2 : n ≤ 56319)
    (hm1 : 56320 ≤ m) (hm2 : m ≤ 57343) (rest : List Char) :
    readU (hex4Chars n ++ '\\' :: 'u' :: (hex4Chars m ++ rest)) =
      some (Char.ofNat (65536 + 1024 * (n - 55296) + (m - 56320)), rest) := by
  have hn' : n < 65536 := by omega
  have hm' : m < 65536 := by omega
  simp [readU, readLow, hex4Chars, hexVal4?_digits _ hn', hexVal4?_digits _ hm',
    hn1, hn2, hm1, hm2]

/-- Parsing one encoded character prepends exactly that character. -/
theorem parseStrF_escChar (f : Nat) (c : Char) (tail : List Char) :
    parseStrF (f + 1) (escChar c ++ tail) =
      (parseStrF f tail).map (fun p => (c :: p.1, p.2)) := by
  by_cases h1 : c = '"'
  · subst h1; simp [escChar, parseStrF, readEscape]
  by_cases h2 : c = '\\'
  · subst h2; simp [escChar, parseStrF, readEscape]
  by_cases h3 : 32 ≤ c.toNat ∧ c.toNat ≤ 126
  · have hnc : ¬ c.toNat < 32 := by omega
    simp [escChar, parseStrF, h1, h2, h3, hnc]
  by_cases h4 : c = '\x08'
  · subst h4; simp [escChar, parseStrF, readEscape]
  by_cases h5 : c = '\x0c'
  · subst h5; simp [escChar, parseStrF, readEscape]
  by_cases h6 : c = '\n'
  · subst h6; simp [escChar, parseStrF, readEscape]
  by_cases h7 : c = '\r'
  · subst h7; simp [escChar, parseStrF, readEscape]
  by_cases h8 : c = '\t'
  · subst h8; simp [escChar, parseStrF, readEscape]
  have hval := char_valid_range c
  by_cases hB : c.toNat < 65536
  · have hns1 : ¬ (55296 ≤ c.toNat ∧ c.toNat ≤ 56319) := by omega
    have hns2 : ¬ (56320 ≤ c.toNat ∧ c.toNat ≤ 57343) := by omega
    simp [escChar, parseStrF, readEscape, readU, hex4Chars, h1, h2, h3, h4, h5,
      h6, h7, h8, hB, hexVal4?_digits c.toNat hB, hns1, hns2, Char.ofNat_toNat]
  · obtain ⟨n, hn⟩ : ∃ n, 55296 + (c.toNat - 65536) / 1024 = n := ⟨_, rfl⟩
    obtain ⟨m, hm⟩ : ∃ m, 56320 + (c.toNat - 65536) % 1024 = m := ⟨_, rfl⟩
    have hn1 : 55296 ≤ n := by omega
    have hn2 : n ≤ 56319 := by omega
    have hm1 : 56320 ≤ m := by omega
    have hm2 : m ≤ 57343 := by omega
    have hchar : Char.ofNat (65536 + 1024 * (n - 55296) + (m - 56320)) = c := by
      have harg : 65536 + 1024 * (n - 55296) + (m - 56320) = c.toNat := by omega
      rw [harg, Char.ofNat_toNat]
    have hesc : escChar c =
        '\\' :: 'u' :: hex4Chars n ++ '\\' :: 'u' :: hex4Chars m := by
      simp [escChar, h1, h2, h3, h4, h5, h6, h7, h8, hB, hn, hm]
    rw [hesc]
    have hshape : ('\\' :: 'u' :: hex4Chars n ++ '\\' :: 'u' :: hex4Chars m) ++ tail =
        '\\' :: 'u' :: (hex4Chars n ++ '\\' :: 'u' :: hex4Chars m ++ tail) := by
      simp
    rw [hshape]
    simp [parseStrF, readEscape, readU_pair n m hn1 hn2 hm1 hm2 tail, hchar]

/-- Round trip with enough fuel: parsing the encoded body of a string
literal recovers the original characters and leaves the input after the
closing quote. -/
theorem parseStrF_encode (cs : List Char) :
    ∀ (f : Nat) (rest : List Char), cs.length < f →
      parseStrF f (encodeChars cs ++ '"' :: rest) = some (cs, rest) := by
  induction cs with
  | nil =>
    intro f rest h
    cases f with
    | zero => omega
    | succ f => simp [encodeChars, parseStrF]
  | cons c cs ih =>
    intro f rest h
    cases f with
    | zero => omega
    | succ f =>
      have hlen : cs.length < f := by
        simp only [List.length_cons] at h
        omega
      rw [encodeChars, List.append_assoc, parseStrF_escChar, ih f rest hlen]
      rfl

/-- Every character encodes to at least one character. -/
theorem le_length_encodeChars (cs : List Char) :
    cs.length ≤ (encodeChars cs).length := by
  induction cs with
  | nil => simp [encodeChars]
  | cons c cs ih =>
    have h1 : 1 ≤ (escChar c).length := by
      unfold escChar
      split_ifs <;> simp [hex4Chars]
    simp only [encodeChars, List.length_cons, List.length_append]
    omega

/-- Round trip for parseStr, whose fuel is always sufficient. -/
theorem parseStr_encode (cs : List Char) (rest : List Char) :
    parseStr (encodeChars cs ++ '"' :: rest) = some (cs, rest) := by
  unfold parseStr
  apply parseStrF_encode
  have h := le_length_encodeChars cs
  simp only [List.length_append, List.length_cons]
  omega

theorem string_mk_data (s : String) : String.mk s.data = s := rfl

/-- Serialized form of a one-member object holding a string. -/
theorem serChars_obj_single_str (k s : String) :
    serChars (JVal.obj [(k, JVal.str s)]) =
      '{' :: '"' :: (encodeChars k.data ++
        ('"' :: ':' :: ' ' :: '"' :: (encodeChars s.data ++ ('"' :: '}' :: [])))) := by
  simp [serChars, serMembers]

/-- Parsing the members of a serialized one-member string object. -/
theorem parseMembers_single (f : Nat) (k s : String) (rest : List Char) :
    parseMembers (f + 2) true
      ('"' :: (encodeChars k.data ++
        ('"' :: ':' :: ' ' :: '"' :: (encodeChars s.data ++ ('"' :: '}' :: rest)))))
      = some ([(k, JVal.str s)], rest) := by
  simp [parseMembers, parseVal, skipWs, isJsonWs, parseStr_encode, string_mk_data]

/-- Parsing a serialized one-member string object as a value. -/
theorem parseVal_obj_single (f : Nat) (k s : String) (rest : List Char) :
    parseVal (f + 3) ('{' :: '"' :: (encodeChars k.data ++
        ('"' :: ':' :: ' ' :: '"' :: (encodeChars s.data ++ ('"' :: '}' :: rest)))))
      = some (JVal.obj [(k, JVal.str s)], rest) := by
  have h := parseMembers_single f k s rest
  simp [parseVal, skipWs, isJsonWs, h]

/-- json.loads inverts json.dumps on a one-member object holding a string. -/
theorem json_loads_dumps_single (k s : String) :
    json_loads (dumps (JVal.obj [(k, JVal.str s)])) =
      some (JVal.obj [(k, JVal.str s)]) := by
  have hdata : (dumps (JVal.obj [(k, JVal.str s)])).data =
      '{' :: '"' :: (encodeChars k.data ++
        ('"' :: ':' :: ' ' :: '"' :: (encodeChars s.data ++ ('"' :: '}' :: [])))) :=
    serChars_obj_single_str k s
  unfold json_loads
  rw [hdata]
  obtain ⟨f, hf⟩ : ∃ f, 2 * ('{' :: '"' :: (encodeChars k.data ++
      ('"' :: ':' :: ' ' :: '"' :: (encodeChars s.data ++
        ('"' :: '}' :: [])))) : List Char).length + 2 = f + 3 := by
    refine ⟨2 * ('{' :: '"' :: (encodeChars k.data ++
      ('"' :: ':' :: ' ' :: '"' :: (encodeChars s.data ++
        ('"' :: '}' :: [])))) : List Char).length - 1, ?_⟩
    simp only [List.length_cons]
    omega
  rw [hf]
  rw [show skipWs ('{' :: '"' :: (encodeChars k.data ++
      ('"' :: ':' :: ' ' :: '"' :: (encodeChars s.data ++ ('"' :: '}' :: []))))) =
      '{' :: '"' :: (encodeChars k.data ++
      ('"' :: ':' :: ' ' :: '"' :: (encodeChars s.data ++ ('"' :: '}' :: []))))
    from by simp [skipWs, isJsonWs]]
  rw [parseVal_obj_single f k s []]
  simp [skipWs]

theorem string_data_append (a b : String) : (a ++ b).data = a.data ++ b.data := rfl

/-! Character-range facts about the serializer output. -/

theorem hexDigitChar_range : ∀ n, n < 16 →
    48 ≤ (hexDigitChar n).toNat ∧ (hexDigitChar n).toNat ≤ 102 := by
  decide

theorem hex4Chars_range (n : Nat) :
    ∀ d ∈ hex4Chars n, 48 ≤ d.toNat ∧ d.toNat ≤ 102 := by
  intro d hd
  simp only [hex4Chars, List.mem_cons, List.not_mem_nil, or_false] at hd
  rcases hd with h | h | h | h <;> subst h <;>
    exact hexDigitChar_range _ (Nat.mod_lt _ (by omega))

/-- The ensure_ascii encoder only emits printable ASCII characters. -/
theorem escChar_printable (c : Char) :
    ∀ d ∈ escChar c, 32 ≤ d.toNat ∧ d.toNat ≤ 126 := by
  unfold escChar
  split_ifs with h1 h2 h3 h4 h5 h6 h7 h8 h9
  · decide
  · decide
  · intro d hd
    simp only [List.mem_singleton] at hd
    subst hd
    exact ⟨h3.1, h3.2⟩
  · decide
  · decide
  · decide
  · decide
  · decide
  · simp only [List.forall_mem_cons]
    exact ⟨by decide, by decide, fun d hd => by have := hex4Chars_range _ d hd; omega⟩
  · simp only [List.cons_append, List.forall_mem_cons, List.forall_mem_append]
    exact ⟨by decide, by decide,
      ⟨fun d hd => by have := hex4Chars_range _ d hd; omega, by decide, by decide,
        fun d hd => by have := hex4Chars_range _ d hd; omega⟩⟩

theorem encodeChars_printable (cs : List Char) :
    ∀ d ∈ encodeChars cs, 32 ≤ d.toNat ∧ d.toNat ≤ 126 := by
  induction cs with
  | nil => intro d hd; simp [encodeChars] at hd
  | cons c cs ih =>
    intro d hd
    simp only [encodeChars, List.mem_append] at hd
    rcases hd with h | h
    · exact escChar_printable c d h
    · exact ih d h

theorem decimalDigit_range : ∀ m, m < 10 →
    48 ≤ (Char.ofNat (48 + m)).toNat ∧ (Char.ofNat (48 + m)).toNat ≤ 57 := by
  decide

theorem natRepr_range (n : Nat) : ∀ d ∈ natRepr n, 48 ≤ d.toNat ∧ d.toNat ≤ 57 := by
  induction n using Nat.strong_induction_on with
  | _ n ih =>
    intro d hd
    rw [natRepr] at hd
    split_ifs at hd with h
    · simp only [List.mem_singleton] at hd
      subst hd
      exact decimalDigit_range n h
    · simp only [List.mem_append, List.mem_singleton] at hd
      rcases hd with hm | hm
      · exact ih (n / 10) (Nat.div_lt_self (by omega) (by omega)) d hm
      · subst hm
        exact decimalDigit_range (n % 10) (Nat.mod_lt _ (by omega))

theorem intRepr_range (i : Int) : ∀ d ∈ intRepr i, 45 ≤ d.toNat ∧ d.toNat ≤ 57 := by
  intro d hd
  cases i with
  | ofNat n =>
    have h : d ∈ natRepr n := hd
    have := natRepr_range n d h
    omega
  | negSucc m =>
    simp only [intRepr, List.mem_cons] at hd
    rcases hd with h | h
    · subst h; decide
    · have := natRepr_range (m + 1) d h
      omega

mutual

/-- json.dumps output consists of printable ASCII characters only
(ensure_ascii escaping plus ASCII punctuation and digits). -/
theorem serChars_printable (v : JVal) :
    ∀ d ∈ serChars v, 32 ≤ d.toNat ∧ d.toNat ≤ 126 := by
  cases v with
  | null => decide
  | bool b => cases b <;> decide
  | num n =>
    simp only [serChars]
    intro d hd
    have := intRepr_range n d hd
    omega
  | str s =>
    simp only [serChars, List.cons_append, List.forall_mem_cons,
      List.forall_mem_append, List.forall_mem_singleton]
    exact ⟨by decide, encodeChars_printable s.data, by decide⟩
  | arr xs =>
    simp only [serChars, List.cons_append, List.forall_mem_cons,
      List.forall_mem_append, List.forall_mem_singleton]
    exact ⟨by decide, serList_printable xs, by decide⟩
  | obj ms =>
    simp only [serChars, List.cons_append, List.forall_mem_cons,
      List.forall_mem_append, List.forall_mem_singleton]
    exact ⟨by decide, serMembers_printable ms, by decide⟩

/-- Serialized array items are printable ASCII. -/
theorem serList_printable (xs : List JVal) :
    ∀ d ∈ serList xs, 32 ≤ d.toNat ∧ d.toNat ≤ 126 := by
  match xs with
  | [] => intro d hd; simp [serList] at hd
  | [x] =>
    simp only [serList]
    exact serChars_printable x
  | x :: y :: ys =>
    simp only [serList, List.cons_append, List.forall_mem_cons,
      List.forall_mem_append]
    exact ⟨serChars_printable x, by decide, by decide, serList_printable (y :: ys)⟩

/-- Serialized object members are printable ASCII. -/
theorem serMembers_printable (ms : List (String × JVal)) :
    ∀ d ∈ serMembers ms, 32 ≤ d.toNat ∧ d.toNat ≤ 126 := by
  match ms with
  | [] => intro d hd; simp [serMembers] at hd
  | [(k, v)] =>
    simp only [serMembers, List.cons_append, List.forall_mem_cons,
      List.forall_mem_append]
    exact ⟨by decide, encodeChars_printable k.data, by decide, by decide, by decide,
      serChars_printable v⟩
  | (k, v) :: m :: rest =>
    simp only [serMembers, List.cons_append, List.forall_mem_cons,
      List.forall_mem_append]
    repeat' apply And.intro
    all_goals
      first
        | exact encodeChars_printable k.data
        | exact serChars_printable v
        | exact serMembers_printable (m :: rest)
        | decide

end

/-! The claims. -/

/-- C1: for every string s, on the input text json.dumps of the object
mapping "prompt" to s, the program writes exactly the line json.dumps of the
object mapping "output" to s followed by a newline and exits with status
zero; moreover that output line is well-formed JSON parsing back to an
object that maps "output" to the very same string value, so the string
(including characters that need escaping, such as an embedded double quote)
round-trips through standard JSON string escaping. -/
theorem prompt_string_echoed (s : String) :
    echoProgram (dumps (JVal.obj [("prompt", JVal.str s)])) =
      some (dumps (JVal.obj [("output", JVal.str s)]) ++ "\n") ∧
    json_loads (dumps (JVal.obj [("output", JVal.str s)])) =
      some (JVal.obj [("output", JVal.str s)]) := by
  constructor
  · unfold echoProgram
    rw [json_loads_dumps_single]
    show echoFromValue _ = _
    simp [echoFromValue, pyGet, lookupLast, outputLine]
  · exact json_loads_dumps_single "output" s

/-- C2: for every JSON value v of any type, an input object whose "prompt"
key resolves to v produces an output object whose "output" value is v
verbatim (serialized unchanged, no trimming or coercion); when the object
has no "prompt" key the output value is the empty string. -/
theorem prompt_value_copied_verbatim (ms : List (String × JVal)) :
    (∀ v : JVal, lookupLast ms "prompt" = some v →
      echoFromValue (JVal.obj ms) =
        some (dumps (JVal.obj [("output", v)]) ++ "\n")) ∧
    (lookupLast ms "prompt" = none →
      echoFromValue (JVal.obj ms) =
        some (dumps (JVal.obj [("output", JVal.str "")]) ++ "\n")) := by
  constructor
  · intro v hv
    simp [echoFromValue, pyGet, hv, outputLine]
  · intro hv
    simp [echoFromValue, pyGet, hv, outputLine]

theorem prompt_value_copied_verbatim_witness :
    echoFromValue (JVal.obj [("prompt", JVal.num 7), ("extra", JVal.bool true)]) =
      some (dumps (JVal.obj [("output", JVal.num 7)]) ++ "\n") ∧
    echoFromValue (JVal.obj [("other", JVal.null)]) =
      some (dumps (JVal.obj [("output", JVal.str "")]) ++ "\n") :=
  ⟨(prompt_value_copied_verbatim [("prompt", JVal.num 7), ("extra", JVal.bool true)]).1
      (JVal.num 7) rfl,
    (prompt_value_copied_verbatim [("other", JVal.null)]).2 rfl⟩

/-- C3: on the input text consisting of an empty JSON object, the program
writes exactly the object mapping "output" to the empty string (not null,
not an error, not an omitted key) followed by a newline, and exits with
status zero. -/
theorem empty_object_gives_empty_string :
    echoProgram "\x7b\x7d" = some "\x7b\"output\": \"\"\x7d\n" := rfl

/-- C4: on any input text that json.loads cannot parse, the process
terminates with nonzero status having written nothing to stdout (the none
outcome of the embedding). -/
theorem malformed_input_aborts (text : String) (h : json_loads text = none) :
    echoProgram text = none := by
  unfold echoProgram
  rw [h]
  rfl

theorem malformed_input_aborts_witness :
    json_loads "not json" = none ∧ echoProgram "not json" = none :=
  ⟨rfl, malformed_input_aborts "not json" rfl⟩

/-- C5: on any input text that parses to a JSON value that is not an object
(array, string, number, boolean or null), the key lookup fails with an
uncaught AttributeError and the process exits with nonzero status. -/
theorem non_object_input_aborts (text : String) (v : JVal)
    (h1 : json_loads text = some v) (h2 : ∀ ms, v ≠ JVal.obj ms) :
    echoProgram text = none := by
  unfold echoProgram
  rw [h1]
  cases v with
  | null => rfl
  | bool b => rfl
  | num n => rfl
  | str s => rfl
  | arr xs => rfl
  | obj ms => exact absurd rfl (h2 ms)

theorem non_object_input_aborts_witness :
    json_loads "[1, 2, 3]" = some (JVal.arr [JVal.num 1, JVal.num 2, JVal.num 3]) ∧
    echoProgram "[1, 2, 3]" = none :=
  ⟨rfl, non_object_input_aborts "[1, 2, 3]"
    (JVal.arr [JVal.num 1, JVal.num 2, JVal.num 3]) rfl
    (fun _ h => JVal.noConfusion h)⟩

/-- C6: every successful run writes exactly one line: the serialized
one-key object mapping "output" to the extracted value, followed by one
trailing newline, and the serialized object itself contains no newline
character, so stdout holds a single line and nothing else. -/
theorem success_output_single_line (text out : String)
    (h : echoProgram text = some out) :
    ∃ v : JVal, out = dumps (JVal.obj [("output", v)]) ++ "\n" ∧
      ∀ d ∈ (dumps (JVal.obj [("output", v)])).data, d ≠ '\n' := by
  unfold echoProgram at h
  rcases hj : json_loads text with _ | w
  · rw [hj] at h
    simp at h
  · rw [hj] at h
    replace h : echoFromValue w = some out := h
    cases w with
    | null => simp [echoFromValue, pyGet] at h
    | bool b => simp [echoFromValue, pyGet] at h
    | num n => simp [echoFromValue, pyGet] at h
    | str s => simp [echoFromValue, pyGet] at h
    | arr xs => simp [echoFromValue, pyGet] at h
    | obj ms =>
      refine ⟨(lookupLast ms "prompt").getD (JVal.str ""), ?_, ?_⟩
      · simp [echoFromValue, pyGet, outputLine] at h
        exact h.symm
      · intro d hd
        have hp := serChars_printable
          (JVal.obj [("output", (lookupLast ms "prompt").getD (JVal.str ""))]) d hd
        intro hEq
        subst hEq
        exact absurd hp (by decide)

theorem success_output_single_line_witness :
    ∃ v : JVal, ("\x7b\"output\": \"\"\x7d\n" : String) =
        dumps (JVal.obj [("output", v)]) ++ "\n" ∧
      ∀ d ∈ (dumps (JVal.obj [("output", v)])).data, d ≠ '\n' :=
  success_output_single_line "\x7b\x7d" "\x7b\"output\": \"\"\x7d\n" rfl

/-- C7: the program is deterministic: two runs on byte-identical stdin
produce the same outcome, byte for byte (the embedding is a pure function
of the input text). -/
theorem echo_repeatable (input : String) (out1 out2 : Option String)
    (h1 : out1 = echoProgram input) (h2 : out2 = echoProgram input) :
    out1 = out2 :=
  h1.trans h2.symm

theorem echo_repeatable_witness :
    (some "\x7b\"output\": \"\"\x7d\n" : Option String) =
      some "\x7b\"output\": \"\"\x7d\n" :=
  echo_repeatable "\x7b\x7d" (some "\x7b\"output\": \"\"\x7d\n")
    (some "\x7b\"output\": \"\"\x7d\n") rfl rfl

/-- C8: when the object maps "prompt" to an explicit JSON null, the output
is the object mapping "output" to null: the empty-string default applies
only to a missing key, not to a null value. -/
theorem null_prompt_outputs_null (ms : List (String × JVal))
    (h : lookupLast ms "prompt" = some JVal.null) :
    echoFromValue (JVal.obj ms) = some "\x7b\"output\": null\x7d\n" := by
  unfold echoFromValue
  rw [show pyGet (JVal.obj ms) "prompt" (JVal.str "") = some JVal.null from by
    simp [pyGet, h]]
  rfl

theorem null_prompt_outputs_null_witness :
    echoFromValue (JVal.obj [("prompt", JVal.null)]) =
      some "\x7b\"output\": null\x7d\n" :=
  null_prompt_outputs_null [("prompt", JVal.null)] rfl

/-- C9: the output depends only on the resolved "prompt" value: two input
objects whose "prompt" lookups agree (both the same value, or both absent)
produce identical output, whatever other keys they carry. -/
theorem output_depends_only_on_prompt (ms1 ms2 : List (String × JVal))
    (h : lookupLast ms1 "prompt" = lookupLast ms2 "prompt") :
    echoFromValue (JVal.obj ms1) = echoFromValue (JVal.obj ms2) := by
  simp [echoFromValue, pyGet, h]

theorem output_depends_only_on_prompt_witness :
    echoFromValue (JVal.obj [("prompt", JVal.str "x"), ("extra", JVal.num 1)]) =
      echoFromValue (JVal.obj [("alpha", JVal.bool false), ("prompt", JVal.str "x")]) :=
  output_depends_only_on_prompt
    [("prompt", JVal.str "x"), ("extra", JVal.num 1)]
    [("alpha", JVal.bool false), ("prompt", JVal.str "x")] rfl

/-- C10: with a string prompt the whole output line consists of ASCII
characters only (ensure_ascii escapes everything above 0x7e as backslash-u
sequences), and the serialized string literal still decodes to the same
string value. -/
theorem output_ascii_and_decodes (s : String) :
    (∀ d ∈ (outputLine (JVal.str s)).data, d.toNat < 128) ∧
    decodeStringLit (dumps (JVal.str s)) = some s := by
  constructor
  · intro d hd
    have hd2 : d ∈ serChars (JVal.obj [("output", JVal.str s)]) ++ ['\n'] := hd
    rcases List.mem_append.mp hd2 with hm | hm
    · have := serChars_printable (JVal.obj [("output", JVal.str s)]) d hm
      omega
    · simp only [List.mem_singleton] at hm
      subst hm
      decide
  · unfold decodeStringLit
    have hdata : (dumps (JVal.str s)).data =
        '"' :: (encodeChars s.data ++ '"' :: []) := by
      show serChars (JVal.str s) = _
      simp [serChars]
    rw [hdata]
    simp [parseStr_encode, string_mk_data]

end EchoProvider
